import Mathlib

/-!
Shallow embedding of `fund_data_service.py` (class `FundDataService`).

Dates (`净值日期`) are modelled as integers counting days; `datetime.now()`
becomes an explicit `now : ℤ` parameter and `timedelta(days = d)` becomes the
integer `d`.  A NAV value (`单位净值`) after `pd.to_numeric(..., errors =
"coerce")` is `some q` when the raw string parsed to the rational `q` and
`none` when parsing failed (pandas `NaN`).  Float arithmetic is idealised as
exact rational / real arithmetic; `f"{x:.2f}"` is modelled as rounding
`x * 100` half-to-even and rendering two decimals, which agrees with Python on
all values considered here.
-/

namespace FundData

/-- A NAV value as it stands after `pd.to_numeric(..., errors="coerce")`:
`some q` for a successfully parsed value, `none` for `NaN`. -/
abbrev NavVal := Option ℚ

/-- A row of the NAV dataframe: `(净值日期, 单位净值)`. -/
abbrev Row := ℤ × NavVal

/-- Outcome of an external akshare fetch: either a table of rows or a raised
exception (network / parse failure), which the source catches. -/
inductive FetchResult (α : Type) where
  | ok (rows : List α)
  | err

/-- Embeds `get_fund_net_value`: on a successful fetch, parse dates and values
(already reflected in `Row`) and keep only rows whose date is at least
`now - 365`; on any exception return an empty dataframe. -/
def get_fund_net_value (now : ℤ) (fr : FetchResult Row) : List Row :=
  match fr with
  | .err => []
  | .ok rows => rows.filter (fun r => now - 365 ≤ r.1)

/-- Floor of a rational as an integer, written with `Int.fdiv` so that it
computes by kernel reduction. -/
def qfloor (q : ℚ) : ℤ := Int.fdiv q.num q.den

/-- Rounds a rational half-to-even to an integer, as Python float formatting
does on exact halves; away from halves it is rounding to nearest
(`qfloor (q + 1/2)` is round-half-up, which agrees off halves). -/
def rhe (q : ℚ) : ℤ :=
  if q - qfloor q = 1/2 then (if qfloor q % 2 = 0 then qfloor q else qfloor q + 1)
  else qfloor (q + 1/2)

/-- Renders a sign and a number of hundredths as a fixed two-decimal string,
e.g. `render2 true 1000 = "-10.00"`. -/
def render2 (neg : Bool) (n : ℕ) : String :=
  (if neg then "-" else "") ++ toString (n / 100) ++ "." ++
    (if n % 100 < 10 then "0" else "") ++ toString (n % 100)

/-- Embeds Python `f"{q:.2f}"` for an exact rational `q`. -/
def format2 (q : ℚ) : String :=
  render2 (decide (q < 0)) (rhe (q * 100)).natAbs

/-- NaN-propagating subtraction on NAV values. -/
def vsub : NavVal → NavVal → NavVal
  | some a, some b => some (a - b)
  | _, _ => none

/-- NaN-propagating division on NAV values.  Division by an exact zero yields
a non-finite float in the source; it is modelled as a missing value (no claim
exercises this case, and the spec flags it as an open question). -/
def vdiv : NavVal → NavVal → NavVal
  | some a, some b => if b = 0 then none else some (a / b)
  | _, _ => none

/-- NaN-propagating scaling of a NAV value by a rational constant. -/
def vmul (v : NavVal) (c : ℚ) : NavVal := v.map (· * c)

/-- Embeds `f"{x:.2f}%"` applied to a possibly-NaN value (`f"{nan:.2f}"` is
`"nan"` in Python). -/
def vfmtPct (v : NavVal) : String :=
  match v with
  | some q => format2 q ++ "%"
  | none => "nan%"

/-- Embeds `df.sort_values('净值日期')`.  Any comparison sort agrees with
pandas here because the data model has unique dates. -/
def sortByDate (l : List Row) : List Row :=
  l.insertionSort (fun a b => a.1 ≤ b.1)

/-- Maximum of a list of dates (`df['净值日期'].max()`); only used on
non-empty dataframes, the `[]` default is never reached on code paths. -/
def listMax : List ℤ → ℤ
  | [] => 0
  | a :: l => l.foldl max a

/-- Embeds `df[df['净值日期'] == d]['单位净值'].iloc[0]`: the value of the
first row carrying date `d` (the dataframe is non-empty with `d` its maximal
date whenever this runs, so the `none` default is never reached). -/
def firstValueAt (s : List Row) (d : ℤ) : NavVal :=
  match s.filter (fun r => r.1 = d) with
  | [] => none
  | r :: _ => r.2

/-- Embeds the body of the per-window loop of `calculate_fund_return`: filter
the sorted dataframe to dates at or before the cutoff; if non-empty take the
last row (`iloc[-1]`) as baseline and format the percentage return, else
return the sentinel `"数据不足"`. -/
def periodReturn (s : List Row) (latestNet : NavVal) (cutoff : ℤ) : String :=
  match (s.filter (fun r => r.1 ≤ cutoff)).getLast? with
  | none => "数据不足"
  | some r => vfmtPct (vmul (vdiv (vsub latestNet r.2) r.2) 100)

/-- The four lookback windows of `calculate_fund_return` with their cutoffs. -/
def periods (latest : ℤ) : List (String × ℤ) :=
  [("近1周", latest - 7), ("近1月", latest - 30),
   ("近3月", latest - 90), ("近1年", latest - 365)]

/-- The all-`"无数据"` result returned for an empty dataframe. -/
def noDataReturns : List (String × String) :=
  [("近1周", "无数据"), ("近1月", "无数据"), ("近3月", "无数据"), ("近1年", "无数据")]

/-- Embeds `calculate_fund_return` from the sorted-dataframe step on (the
dataframe argument is the result of `get_fund_net_value`). -/
def calculate_fund_return_df (df : List Row) : List (String × String) :=
  if df.isEmpty then noDataReturns
  else
    let s := sortByDate df
    let latestDate := listMax (s.map (·.1))
    let latestNet := firstValueAt s latestDate
    (periods latestDate).map (fun p => (p.1, periodReturn s latestNet p.2))

/-- Embeds `calculate_fund_return` end to end: fetch, then compute. -/
def calculate_fund_return (now : ℤ) (fr : FetchResult Row) : List (String × String) :=
  calculate_fund_return_df (get_fund_net_value now fr)

/-- Running maximum with a NaN-skipping accumulator, the recursion underlying
`df['单位净值'].cummax()` (pandas keeps `NaN` at `NaN` positions and carries
the running maximum across them). -/
def cummaxAux : Option ℚ → List NavVal → List NavVal
  | _, [] => []
  | acc, none :: rest => none :: cummaxAux acc rest
  | acc, some v :: rest =>
    let m := match acc with | none => v | some a => max a v
    some m :: cummaxAux (some m) rest

/-- Embeds `df['单位净值'].cummax()`. -/
def cummaxV (l : List NavVal) : List NavVal := cummaxAux none l

/-- Embeds `df['回撤'] = (df['单位净值'] - df['累计最大值']) / df['累计最大值'] * 100`. -/
def drawdowns (values : List NavVal) : List NavVal :=
  List.zipWith (fun v m => vmul (vdiv (vsub v m) m) 100) values (cummaxV values)

/-- Embeds `Series.min()` with its default `skipna = True`: the minimum of the
non-NaN entries, or NaN when there are none. -/
def minSkipNa (l : List NavVal) : NavVal :=
  match l.filterMap id with
  | [] => none
  | a :: rest => some (rest.foldl min a)

/-- Embeds `df['单位净值'].pct_change()` without its leading `NaN`:
`(v_i - v_{i-1}) / v_{i-1}` for consecutive rows, NaN-propagating.  (The
forward-fill that a pandas default would apply to interior `NaN` values before
differencing is not modelled; it is irrelevant on fully parsed series.) -/
def pct_change (values : List NavVal) : List NavVal :=
  List.zipWith (fun cur prev => vdiv (vsub cur prev) prev) values.tail values

/-- Embeds `df['单位净值'].pct_change().dropna()`: the parsed daily returns. -/
def daily_returns (values : List NavVal) : List ℚ :=
  (pct_change values).filterMap id

/-- Mean of a list of rationals (`Series.mean()`). -/
def listMean (l : List ℚ) : ℚ := l.sum / l.length

/-- Sample variance with one delta degree of freedom, the square of pandas
`Series.std()`; only used on lists of length at least 30. -/
def sampleVar (l : List ℚ) : ℚ :=
  (l.map (fun x => (x - listMean l) ^ 2)).sum / ((l.length : ℚ) - 1)

/-- Embeds `daily_returns.std()`: the sample standard deviation, as a real. -/
noncomputable def daily_return_std (l : List ℚ) : ℝ :=
  Real.sqrt ((sampleVar l : ℚ) : ℝ)

open scoped Classical in
/-- Embeds the guarded Sharpe value:
`(mean*252 - 0.03) / (std*sqrt 252) if std != 0 else 0`. -/
noncomputable def sharpeVal (l : List ℚ) : ℝ :=
  if daily_return_std l ≠ 0 then
    ((listMean l : ℝ) * 252 - 0.03) / (daily_return_std l * Real.sqrt 252)
  else 0

open scoped Classical in
/-- Rounds a real half-to-even to an integer (Python float formatting). -/
noncomputable def rheR (x : ℝ) : ℤ :=
  if x - ⌊x⌋ = 1/2 then (if 2 ∣ ⌊x⌋ then ⌊x⌋ else ⌊x⌋ + 1) else round x

open scoped Classical in
/-- Embeds Python `f"{x:.2f}"` for a real `x`. -/
noncomputable def format2R (x : ℝ) : String :=
  render2 (if x < 0 then true else false) (rheR (x * 100)).natAbs

open scoped Classical in
/-- Embeds the Sharpe branch of `calculate_risk_index`: the sentinel
`"数据不足"` when fewer than 30 daily returns exist, otherwise the formatted
guarded Sharpe value (`f"{sharpe:.2f}"`, where `f"{0:.2f}" = "0.00"`). -/
noncomputable def sharpeStr (l : List ℚ) : String :=
  if l.length < 30 then "数据不足" else format2R (sharpeVal l)

/-- The all-`"无数据"` result of `calculate_risk_index` for an empty dataframe. -/
def noDataRisk : List (String × String) :=
  [("最大回撤", "无数据"), ("夏普比率", "无数据")]

/-- Embeds `calculate_risk_index` from the sorted-dataframe step on. -/
noncomputable def calculate_risk_index_df (df : List Row) : List (String × String) :=
  if df.isEmpty then noDataRisk
  else
    let s := sortByDate df
    let values := s.map (·.2)
    [("最大回撤", vfmtPct (minSkipNa (drawdowns values))),
     ("夏普比率", sharpeStr (daily_returns values))]

/-- Embeds `calculate_risk_index` end to end: fetch, then compute. -/
noncomputable def calculate_risk_index (now : ℤ) (fr : FetchResult Row) :
    List (String × String) :=
  calculate_risk_index_df (get_fund_net_value now fr)

/-- A row of the holdings table: stock code, stock name, share of net value,
kept as opaque strings (pure pass-through in the source). -/
structure HoldRow where
  code : String
  name : String
  pct : String

/-- Renders one holdings row; the fixed-width `to_string` layout of pandas is
abstracted as space-separated fields (no claim depends on the layout). -/
def renderHoldRow (r : HoldRow) : String :=
  r.code ++ " " ++ r.name ++ " " ++ r.pct

/-- Embeds `get_fund_portfolio`: failure string on exception, sentinel on an
empty table, otherwise a rendering of the first five rows. -/
def get_fund_portfolio (fr : FetchResult HoldRow) : String :=
  match fr with
  | .err => "获取持仓失败"
  | .ok [] => "暂无持仓数据"
  | .ok rows => String.intercalate "\n" ((rows.take 5).map renderHoldRow)

/-- The default basic-info mapping. -/
def unknownInfo : List (String × String) :=
  [("基金名称", "未知"), ("基金类型", "未知")]

/-- Embeds `get_fund_basic_info`: rows are `(项目, 值)` pairs; on exception or
an empty table return the default mapping, otherwise extract the first
`基金全称` and `基金类型` rows, defaulting to `"未知"` when absent. -/
def get_fund_basic_info (fr : FetchResult (String × String)) : List (String × String) :=
  match fr with
  | .err => unknownInfo
  | .ok rows =>
    if rows.isEmpty then unknownInfo
    else
      let name := match rows.filter (fun r => r.1 = "基金全称") with
        | [] => "未知"
        | r :: _ => r.2
      let ftype := match rows.filter (fun r => r.1 = "基金类型") with
        | [] => "未知"
        | r :: _ => r.2
      [("基金名称", name), ("基金类型", ftype)]

/-- Lifts a fully parsed series (all values successfully parsed) into the
dataframe representation. -/
def liftSeries (entries : List (ℤ × ℚ)) : List Row :=
  entries.map (fun p => (p.1, some p.2))

/-! ### General lemmas about the embedded operations -/

theorem le_foldl_max (l : List ℤ) : ∀ a x : ℤ, (x = a ∨ x ∈ l) → x ≤ l.foldl max a := by
  induction l with
  | nil =>
    intro a x h
    rcases h with h | h
    · simp [h]
    · cases h
  | cons b t ih =>
    intro a x h
    rcases h with h | h
    · subst h
      exact le_trans (le_max_left x b) (ih (max x b) _ (Or.inl rfl))
    · rcases List.mem_cons.mp h with h | h
      · subst h
        exact le_trans (le_max_right a x) (ih (max a x) _ (Or.inl rfl))
      · exact ih (max a b) _ (Or.inr h)

theorem foldl_max_mem (l : List ℤ) : ∀ a : ℤ, l.foldl max a = a ∨ l.foldl max a ∈ l := by
  induction l with
  | nil => exact fun a => Or.inl rfl
  | cons b t ih =>
    intro a
    rcases ih (max a b) with h | h
    · rcases max_choice a b with hm | hm
      · exact Or.inl (by rw [List.foldl_cons, h, hm])
      · exact Or.inr (by rw [List.foldl_cons, h, hm]; exact List.mem_cons_self b t)
    · exact Or.inr (List.mem_cons_of_mem b h)

theorem listMax_mem {l : List ℤ} (h : l ≠ []) : listMax l ∈ l := by
  match l, h with
  | a :: t, _ =>
    rcases foldl_max_mem t a with h | h
    · rw [listMax, h]; exact List.mem_cons_self a t
    · exact List.mem_cons_of_mem a (by rw [listMax]; exact h)

theorem le_listMax {l : List ℤ} {x : ℤ} (hx : x ∈ l) : x ≤ listMax l := by
  match l, hx with
  | a :: t, hx =>
    rcases List.mem_cons.mp hx with h | h
    · exact le_foldl_max t a x (Or.inl h)
    · exact le_foldl_max t a x (Or.inr h)

theorem date_le_getLast :
    ∀ (s : List Row) (hs : List.Sorted (fun a b => a.1 < b.1) s) (hne : s ≠ [])
      (e : Row), e ∈ s → e.1 ≤ (s.getLast hne).1 := by
  intro s
  induction s with
  | nil => intro _ hne; cases hne rfl
  | cons a t ih =>
    intro hs _ e he
    cases t with
    | nil =>
      rcases List.mem_cons.mp he with h | h
      · simp [h]
      · cases h
    | cons b t2 =>
      rw [List.getLast_cons (List.cons_ne_nil b t2)]
      rcases List.mem_cons.mp he with h | h
      · subst h
        exact le_of_lt ((List.pairwise_cons.mp hs).1 _
          (List.getLast_mem (List.cons_ne_nil b t2)))
      · exact ih (List.Sorted.of_cons hs) (List.cons_ne_nil b t2) e h

theorem sortByDate_eq_self {s : List Row}
    (hs : List.Sorted (fun a b => a.1 < b.1) s) : sortByDate s = s :=
  List.Sorted.insertionSort_eq (hs.imp (fun h => le_of_lt h))

theorem listMax_eq_getLast {s : List Row}
    (hs : List.Sorted (fun a b => a.1 < b.1) s) (hne : s ≠ []) :
    listMax (s.map (·.1)) = (s.getLast hne).1 := by
  have hmapne : s.map (·.1) ≠ [] := by
    intro h; exact hne (List.map_eq_nil_iff.mp h)
  apply le_antisymm
  · rcases List.mem_map.mp (listMax_mem hmapne) with ⟨e, he, hex⟩
    rw [← hex]
    exact date_le_getLast s hs hne e he
  · exact le_listMax (List.mem_map_of_mem _ (List.getLast_mem hne))

theorem firstValueAt_getLast :
    ∀ (s : List Row) (hs : List.Sorted (fun a b => a.1 < b.1) s) (hne : s ≠ []),
      firstValueAt s ((s.getLast hne).1) = (s.getLast hne).2 := by
  intro s
  induction s with
  | nil => intro _ hne; cases hne rfl
  | cons a t ih =>
    intro hs _
    cases t with
    | nil => simp [firstValueAt]
    | cons b t2 =>
      have hne2 : b :: t2 ≠ [] := List.cons_ne_nil b t2
      have hlt : a.1 < ((b :: t2).getLast hne2).1 :=
        (List.pairwise_cons.mp hs).1 _ (List.getLast_mem hne2)
      rw [List.getLast_cons hne2]
      have hfa : firstValueAt (a :: b :: t2) (((b :: t2).getLast hne2).1) =
          firstValueAt (b :: t2) (((b :: t2).getLast hne2).1) := by
        simp only [firstValueAt]
        rw [List.filter_cons_of_neg (by simp [ne_of_lt hlt])]
      rw [hfa]
      exact ih (List.Sorted.of_cons hs) hne2

theorem getLast?_filter_le :
    ∀ (s : List Row) (c : ℤ) (b : Row),
      List.Sorted (fun a b => a.1 < b.1) s → b ∈ s → b.1 ≤ c →
      (∀ e ∈ s, e.1 ≤ c → e.1 ≤ b.1) →
      (s.filter (fun r => r.1 ≤ c)).getLast? = some b := by
  intro s
  induction s with
  | nil => intro c b _ hb; cases hb
  | cons a t ih =>
    intro c b hs hb hbc hmax
    by_cases hac : a.1 ≤ c
    · rw [List.filter_cons_of_pos (by simpa using hac)]
      by_cases ht : t.filter (fun r => decide (r.1 ≤ c)) = []
      · have hba : b = a := by
          rcases List.mem_cons.mp hb with h | h
          · exact h
          · exfalso
            have : b ∈ t.filter (fun r => decide (r.1 ≤ c)) :=
              List.mem_filter.mpr ⟨h, by simpa using hbc⟩
            rw [ht] at this
            cases this
        rw [ht, hba]
        rfl
      · rcases List.exists_mem_of_ne_nil _ ht with ⟨e, he⟩
        have heT : e ∈ t := (List.mem_filter.mp he).1
        have heC : e.1 ≤ c := by simpa using (List.mem_filter.mp he).2
        have hbt : b ∈ t := by
          rcases List.mem_cons.mp hb with h | h
          · exfalso
            have h1 : e.1 ≤ b.1 := hmax e (List.mem_cons_of_mem a heT) heC
            have h2 : a.1 < e.1 := (List.pairwise_cons.mp hs).1 e heT
            rw [h] at h1
            exact absurd h1 (not_le_of_lt h2)
          · exact h
        have hrec : (t.filter (fun r => decide (r.1 ≤ c))).getLast? = some b :=
          ih c b (List.Sorted.of_cons hs) hbt hbc
            (fun e he hec => hmax e (List.mem_cons_of_mem a he) hec)
        cases hcase : t.filter (fun r => decide (r.1 ≤ c)) with
        | nil => exact absurd hcase ht
        | cons x xs =>
          rw [hcase] at hrec
          rw [List.getLast?_cons_cons]
          exact hrec
    · rw [List.filter_cons_of_neg (by simpa using hac)]
      have hbt : b ∈ t := by
        rcases List.mem_cons.mp hb with h | h
        · exfalso; rw [h] at hbc; exact hac hbc
        · exact h
      exact ih c b (List.Sorted.of_cons hs) hbt hbc
        (fun e he hec => hmax e (List.mem_cons_of_mem a he) hec)

theorem liftSeries_map_fst (entries : List (ℤ × ℚ)) :
    (liftSeries entries).map (·.1) = entries.map (·.1) := by
  simp [liftSeries]

theorem liftSeries_map_snd (entries : List (ℤ × ℚ)) :
    (liftSeries entries).map (·.2) = (entries.map (·.2)).map some := by
  simp [liftSeries]

theorem liftSeries_ne_nil {entries : List (ℤ × ℚ)} (h : entries ≠ []) :
    liftSeries entries ≠ [] := by
  simp [liftSeries, h]

theorem liftSeries_sorted {entries : List (ℤ × ℚ)}
    (h : List.Sorted (fun a b => a.1 < b.1) entries) :
    List.Sorted (fun a b => a.1 < b.1) (liftSeries entries) := by
  simpa [liftSeries, List.Sorted, List.pairwise_map] using h

theorem liftSeries_getLast {entries : List (ℤ × ℚ)} (h : entries ≠ []) :
    (liftSeries entries).getLast (liftSeries_ne_nil h) =
      ((entries.getLast h).1, some (entries.getLast h).2) := by
  simp [liftSeries, List.getLast_map]

theorem calc_return_df_eq {df : List Row} (hne : df ≠ [])
    (hs : List.Sorted (fun a b => a.1 < b.1) df) :
    calculate_fund_return_df df =
      (periods ((df.getLast hne).1)).map
        (fun p => (p.1, periodReturn df ((df.getLast hne).2) p.2)) := by
  have hfv := firstValueAt_getLast df hs hne
  obtain ⟨a, t, rfl⟩ := List.exists_cons_of_ne_nil hne
  simp only [calculate_fund_return_df, List.isEmpty_cons, Bool.false_eq_true, if_false]
  rw [sortByDate_eq_self hs, listMax_eq_getLast hs hne, hfv]

theorem calc_risk_df_eq {df : List Row} (hne : df ≠ [])
    (hs : List.Sorted (fun a b => a.1 < b.1) df) :
    calculate_risk_index_df df =
      [("最大回撤", vfmtPct (minSkipNa (drawdowns (df.map (·.2))))),
       ("夏普比率", sharpeStr (daily_returns (df.map (·.2))))] := by
  obtain ⟨a, t, rfl⟩ := List.exists_cons_of_ne_nil hne
  simp only [calculate_risk_index_df, List.isEmpty_cons, Bool.false_eq_true, if_false]
  rw [sortByDate_eq_self hs]

theorem periodReturn_baseline {s : List Row} {vl : ℚ} {c db : ℤ} {vb : ℚ}
    (hs : List.Sorted (fun a b => a.1 < b.1) s)
    (hb : ((db, some vb) : Row) ∈ s) (hbc : db ≤ c)
    (hmax : ∀ e ∈ s, e.1 ≤ c → e.1 ≤ db) (hvb : vb ≠ 0) :
    periodReturn s (some vl) c = format2 ((vl - vb) / vb * 100) ++ "%" := by
  have h := getLast?_filter_le s c (db, some vb) hs hb hbc hmax
  simp only [periodReturn, h, vsub, vdiv, vmul, vfmtPct, if_neg hvb]
  rfl

theorem periodReturn_insufficient {s : List Row} {ln : NavVal} {c : ℤ}
    (h : ∀ e ∈ s, c < e.1) : periodReturn s ln c = "数据不足" := by
  have hf : s.filter (fun r => decide (r.1 ≤ c)) = [] :=
    List.filter_eq_nil_iff.mpr (fun e he => by simpa using not_le_of_lt (h e he))
  simp [periodReturn, hf]

/-! ### Claim theorems -/

/-- C1: for a failed fetch and for an empty NAV series, every public operation
returns its default or placeholder value (all operations are total, so no
exception reaches the caller): the loader yields an empty series, the
period-return operation maps all four labels to the "无数据" sentinel, the
risk operation maps both metrics to "无数据", and the holdings and basic-info
operations return their placeholder values. -/
theorem C1_error_defaults :
    (∀ now : ℤ, get_fund_net_value now .err = []) ∧
    (∀ now : ℤ, get_fund_net_value now (.ok []) = []) ∧
    (∀ now : ℤ, calculate_fund_return now .err =
      [("近1周", "无数据"), ("近1月", "无数据"), ("近3月", "无数据"), ("近1年", "无数据")]) ∧
    (calculate_fund_return_df [] =
      [("近1周", "无数据"), ("近1月", "无数据"), ("近3月", "无数据"), ("近1年", "无数据")]) ∧
    (∀ now : ℤ, calculate_risk_index now .err =
      [("最大回撤", "无数据"), ("夏普比率", "无数据")]) ∧
    (calculate_risk_index_df [] = [("最大回撤", "无数据"), ("夏普比率", "无数据")]) ∧
    (get_fund_portfolio .err = "获取持仓失败") ∧
    (get_fund_portfolio (.ok []) = "暂无持仓数据") ∧
    (get_fund_basic_info .err = [("基金名称", "未知"), ("基金类型", "未知")]) ∧
    (get_fund_basic_info (.ok []) = [("基金名称", "未知"), ("基金类型", "未知")]) := by
  refine ⟨fun _ => rfl, fun _ => rfl, fun _ => rfl, rfl, fun _ => ?_, ?_, rfl, rfl, rfl, rfl⟩
  · simp [calculate_risk_index, get_fund_net_value, calculate_risk_index_df, noDataRisk]
  · simp [calculate_risk_index_df, noDataRisk]

unseal Rat.mul Rat.add Rat.sub Rat.inv in
/-- C2: on a (date-sorted, unique-dates) NAV series, the per-window return
takes as baseline the entry with the largest date at or before the cutoff and
returns `(latest - baseline) / baseline * 100` formatted to two decimals with
a percent suffix; concretely, for the series
`[(day0, 1.000), (day10, 1.100), (day20, 0.990)]` the 1-week (7-day lookback)
return is `"-10.00%"`. -/
theorem C2_period_return_formula :
    (∀ (s : List Row) (vl : ℚ) (c db : ℤ) (vb : ℚ),
        List.Sorted (fun a b => a.1 < b.1) s →
        ((db, some vb) : Row) ∈ s → db ≤ c →
        (∀ e ∈ s, e.1 ≤ c → e.1 ≤ db) → vb ≠ 0 →
        periodReturn s (some vl) c = format2 ((vl - vb) / vb * 100) ++ "%") ∧
    List.lookup "近1周"
        (calculate_fund_return_df (liftSeries [(0, 1), (10, 11/10), (20, 99/100)])) =
      some "-10.00%" :=
  ⟨fun _ _ _ _ _ hs hb hbc hmax hvb => periodReturn_baseline hs hb hbc hmax hvb,
   by decide⟩

unseal Rat.mul Rat.add Rat.sub Rat.inv in
/-- Witness for C2: the general part applied to the concrete three-entry
series with cutoff `day13`, baseline entry `(day10, 1.100)`. -/
theorem C2_witness :
    periodReturn (liftSeries [(0, 1), (10, 11/10), (20, 99/100)]) (some (99/100)) 13 =
      format2 (((99:ℚ)/100 - 11/10) / (11/10) * 100) ++ "%" :=
  C2_period_return_formula.1 (liftSeries [(0, 1), (10, 11/10), (20, 99/100)])
    (99/100) 13 10 (11/10) (by decide) (by decide) (by decide) (by decide) (by decide)

/-- C3: on a non-empty sorted NAV series, any of the four lookback windows
whose cutoff lies strictly before every date of the series yields the
"数据不足" ("insufficient data") sentinel, which differs from the "无数据"
("no data") sentinel of the empty series. -/
theorem C3_insufficient_sentinel :
    (∀ (df : List Row) (label : String) (d : ℤ) (hne : df ≠ []),
        List.Sorted (fun a b => a.1 < b.1) df →
        (label, d) ∈ [("近1周", (7:ℤ)), ("近1月", 30), ("近3月", 90), ("近1年", 365)] →
        (∀ e ∈ df, (df.getLast hne).1 - d < e.1) →
        List.lookup label (calculate_fund_return_df df) = some "数据不足") ∧
    "数据不足" ≠ "无数据" := by
  constructor
  · intro df label d hne hs hmem hfar
    rw [calc_return_df_eq hne hs]
    simp only [List.mem_cons, List.not_mem_nil, or_false, Prod.mk.injEq] at hmem
    rcases hmem with ⟨rfl, rfl⟩ | ⟨rfl, rfl⟩ | ⟨rfl, rfl⟩ | ⟨rfl, rfl⟩ <;>
      simp [periods, List.lookup, periodReturn_insufficient hfar]
  · decide

/-- Witness for C3: a two-entry series spanning 10 days, where the 1-year
window's cutoff precedes every date. -/
theorem C3_witness :
    List.lookup "近1年" (calculate_fund_return_df [((0:ℤ), some (1:ℚ)), (10, some 2)]) =
      some "数据不足" ∧ "数据不足" ≠ "无数据" :=
  ⟨C3_insufficient_sentinel.1 [(0, some 1), (10, some 2)] "近1年" 365 (by decide)
    (by decide) (by decide) (by decide), C3_insufficient_sentinel.2⟩

/-- C10: for any series the loader produces in which every date lies strictly
within 365 days of the series' latest date, the 1-year ("近1年") period return
is the "数据不足" sentinel: its cutoff of latest minus 365 days can have no
entry at or before it. -/
theorem C10_one_year_insufficient :
    ∀ (now : ℤ) (fr : FetchResult Row) (hne : get_fund_net_value now fr ≠ []),
      List.Sorted (fun a b => a.1 < b.1) (get_fund_net_value now fr) →
      (∀ e ∈ get_fund_net_value now fr,
        ((get_fund_net_value now fr).getLast hne).1 - 365 < e.1) →
      List.lookup "近1年" (calculate_fund_return now fr) = some "数据不足" := by
  intro now fr hne hs hfar
  show List.lookup "近1年" (calculate_fund_return_df (get_fund_net_value now fr)) = _
  rw [calc_return_df_eq hne hs]
  simp [periods, List.lookup, periodReturn_insufficient hfar]

/-- Witness for C10: a fetch of two rows dated 800 and 900 at `now = 1000`;
both survive the trailing-year filter and lie within 365 days of the latest. -/
theorem C10_witness :
    List.lookup "近1年"
        (calculate_fund_return 1000 (.ok [(800, some 1), (900, some 2)])) =
      some "数据不足" :=
  C10_one_year_insufficient 1000 (.ok [(800, some 1), (900, some 2)])
    (by decide) (by decide) (by decide)

theorem cummaxAux_of_le (vs : List ℚ) :
    ∀ m : ℚ, vs.Pairwise (· ≤ ·) → (∀ v ∈ vs, m ≤ v) →
      cummaxAux (some m) (vs.map some) = vs.map some := by
  induction vs with
  | nil => intro m _ _; rfl
  | cons v t ih =>
    intro m hp hm
    have hmv : max m v = v := max_eq_right (hm v (List.mem_cons_self v t))
    simp only [List.map_cons, cummaxAux, hmv]
    exact congrArg (some v :: ·)
      (ih v (List.Pairwise.of_cons hp) (fun w hw => (List.pairwise_cons.mp hp).1 w hw))

theorem cummaxV_of_monotone {vs : List ℚ} (h : vs.Pairwise (· ≤ ·)) :
    cummaxV (vs.map some) = vs.map some := by
  cases vs with
  | nil => rfl
  | cons v t =>
    simp only [List.map_cons, cummaxV, cummaxAux]
    exact congrArg (some v :: ·)
      (cummaxAux_of_le t v (List.Pairwise.of_cons h) (fun w hw => (List.pairwise_cons.mp h).1 w hw))

theorem cummaxAux_of_ge (vs : List ℚ) :
    ∀ m : ℚ, (∀ v ∈ vs, v ≤ m) → cummaxAux (some m) (vs.map some) = vs.map (fun _ => some m) := by
  induction vs with
  | nil => intro m _; rfl
  | cons v t ih =>
    intro m hm
    have hmv : max m v = m := max_eq_left (hm v (List.mem_cons_self v t))
    simp only [List.map_cons, cummaxAux, hmv]
    exact congrArg (some m :: ·) (ih m (fun w hw => hm w (List.mem_cons_of_mem v hw)))

theorem drawdowns_monotone {vs : List ℚ} (hp : vs.Pairwise (· ≤ ·))
    (hnz : ∀ v ∈ vs, v ≠ 0) :
    drawdowns (vs.map some) = vs.map (fun _ => some 0) := by
  rw [drawdowns, cummaxV_of_monotone hp, List.zipWith_same, List.map_map]
  refine List.map_congr_left (fun v hv => ?_)
  simp [vsub, vdiv, vmul, hnz v hv]

theorem foldl_min_replicate : ∀ (n : ℕ) (q : ℚ), (List.replicate n q).foldl min q = q := by
  intro n q
  induction n with
  | zero => rfl
  | succ k ih => simpa [List.replicate_succ, min_self] using ih

theorem filterMap_id_map_some (l : List ℚ) : (l.map some).filterMap id = l := by
  induction l with
  | nil => rfl
  | cons a t ih => simpa using ih

theorem minSkipNa_map_some {l : List ℚ} (h : l ≠ []) :
    minSkipNa (l.map some) = some (l.tail.foldl min (l.head h)) := by
  obtain ⟨a, t, rfl⟩ := List.exists_cons_of_ne_nil h
  simp [minSkipNa, filterMap_id_map_some]

theorem minSkipNa_map_const {vs : List ℚ} (h : vs ≠ []) (q : ℚ) :
    minSkipNa (vs.map (fun _ => some q)) = some q := by
  obtain ⟨a, t, rfl⟩ := List.exists_cons_of_ne_nil h
  have hmm : (a :: t).map (fun _ => some q) = ((a :: t).map (fun _ => q)).map some := by
    rw [List.map_map]; rfl
  rw [hmm, minSkipNa_map_some (by simp)]
  simp [foldl_min_replicate]

theorem drawdowns_head_max {v0 : ℚ} {rest : List ℚ}
    (hle : ∀ v ∈ rest, v ≤ v0) (h0 : v0 ≠ 0) :
    drawdowns ((v0 :: rest).map some) =
      (v0 :: rest).map (fun v => some ((v - v0) / v0 * 100)) := by
  have hcm : cummaxV ((v0 :: rest).map some) = (v0 :: rest).map (fun _ => some v0) := by
    simp only [List.map_cons, cummaxV, cummaxAux]
    exact congrArg (some v0 :: ·) (cummaxAux_of_ge rest v0 hle)
  rw [drawdowns, hcm, List.zipWith_map]
  rw [List.zipWith_same]
  refine List.map_congr_left (fun v _ => ?_)
  simp [vsub, vdiv, vmul, h0]

theorem foldl_min_of_strict :
    ∀ (t : List ℚ) (a : ℚ), (a :: t).Pairwise (· > ·) →
      t.foldl min a = (a :: t).getLast (List.cons_ne_nil a t) := by
  intro t
  induction t with
  | nil => intro a _; rfl
  | cons b t2 ih =>
    intro a hp
    have hab : min a b = b :=
      min_eq_right (le_of_lt ((List.pairwise_cons.mp hp).1 b (List.mem_cons_self b t2)))
    rw [List.foldl_cons, hab, List.getLast_cons (List.cons_ne_nil b t2)]
    exact ih b (List.Pairwise.of_cons hp)

unseal Rat.mul Rat.add Rat.sub Rat.inv in
theorem format2_zero_eq : format2 0 = "0.00" := by decide

/-- C4: on a non-empty NAV series (sorted by date, positive values) whose
values are monotonically non-decreasing in date order, the computed maximum
drawdown is 0, and the risk dictionary reports "0.00%" for it. -/
theorem C4_monotone_drawdown_zero :
    ∀ entries : List (ℤ × ℚ), entries ≠ [] →
      List.Sorted (fun a b => a.1 < b.1) entries →
      (∀ e ∈ entries, 0 < e.2) →
      (entries.map (·.2)).Pairwise (· ≤ ·) →
      minSkipNa (drawdowns ((liftSeries entries).map (·.2))) = some 0 ∧
      List.lookup "最大回撤" (calculate_risk_index_df (liftSeries entries)) =
        some "0.00%" := by
  intro entries hne hs hpos hmono
  have hnz : ∀ v ∈ entries.map (·.2), v ≠ 0 := by
    intro v hv
    obtain ⟨e, he, rfl⟩ := List.mem_map.mp hv
    exact ne_of_gt (hpos e he)
  have hdd : minSkipNa (drawdowns ((liftSeries entries).map (·.2))) = some 0 := by
    rw [liftSeries_map_snd, drawdowns_monotone hmono hnz,
      minSkipNa_map_const (by simpa using hne) 0]
  refine ⟨hdd, ?_⟩
  rw [calc_risk_df_eq (liftSeries_ne_nil hne) (liftSeries_sorted hs)]
  simp [List.lookup, hdd, vfmtPct, format2_zero_eq]

/-- Witness for C4: the non-decreasing positive series
`[(0, 1), (1, 1), (2, 2)]`. -/
theorem C4_witness :
    minSkipNa (drawdowns ((liftSeries [(0, 1), (1, 1), (2, 2)]).map (·.2))) = some 0 ∧
    List.lookup "最大回撤" (calculate_risk_index_df (liftSeries [(0, 1), (1, 1), (2, 2)])) =
      some "0.00%" :=
  C4_monotone_drawdown_zero [(0, 1), (1, 1), (2, 2)]
    (by decide) (by decide) (by decide) (by decide)

/-- C5: on a strictly decreasing NAV series of length at least two (sorted by
date, positive initial value), the computed maximum drawdown equals
`(last - first) / first * 100`, and the risk dictionary reports exactly that
value formatted. -/
theorem C5_strict_decreasing_drawdown :
    ∀ (entries : List (ℤ × ℚ)) (hne : entries ≠ []),
      2 ≤ entries.length →
      List.Sorted (fun a b => a.1 < b.1) entries →
      (entries.map (·.2)).Pairwise (· > ·) →
      0 < (entries.head hne).2 →
      minSkipNa (drawdowns ((liftSeries entries).map (·.2))) =
        some (((entries.getLast hne).2 - (entries.head hne).2) /
          (entries.head hne).2 * 100) ∧
      List.lookup "最大回撤" (calculate_risk_index_df (liftSeries entries)) =
        some (format2 (((entries.getLast hne).2 - (entries.head hne).2) /
          (entries.head hne).2 * 100) ++ "%") := by
  intro entries hne hlen hs hdec hpos
  have h1 : minSkipNa (drawdowns ((liftSeries entries).map (·.2))) =
      some (((entries.getLast hne).2 - (entries.head hne).2) /
        (entries.head hne).2 * 100) := by
    obtain ⟨e0, rest, rfl⟩ := List.exists_cons_of_ne_nil hne
    have hvals : (e0 :: rest).map (·.2) = e0.2 :: rest.map (·.2) := rfl
    have hdec2 : (e0.2 :: rest.map (·.2)).Pairwise (· > ·) := by
      rw [← hvals]; exact hdec
    have hle : ∀ v ∈ rest.map (·.2), v ≤ e0.2 :=
      fun v hv => le_of_lt ((List.pairwise_cons.mp hdec2).1 v hv)
    have hv0 : e0.2 ≠ 0 := ne_of_gt hpos
    rw [liftSeries_map_snd, hvals, drawdowns_head_max hle hv0]
    rw [show (e0.2 :: rest.map (·.2)).map (fun v => some ((v - e0.2) / e0.2 * 100)) =
        ((e0.2 :: rest.map (·.2)).map (fun v => (v - e0.2) / e0.2 * 100)).map some by
      rw [List.map_map]; rfl]
    rw [minSkipNa_map_some (by simp)]
    have hmono : ∀ a b : ℚ, a > b →
        (a - e0.2) / e0.2 * 100 > (b - e0.2) / e0.2 * 100 := by
      intro a b hab
      have h2 : (b - e0.2) / e0.2 < (a - e0.2) / e0.2 :=
        div_lt_div_iff_of_pos_right hpos |>.mpr (sub_lt_sub_right hab _)
      have h100 : (0:ℚ) < 100 := by norm_num
      exact mul_lt_mul_of_pos_right h2 h100
    have hpair : ((e0.2 :: rest.map (·.2)).map
        (fun v => (v - e0.2) / e0.2 * 100)).Pairwise (· > ·) :=
      List.pairwise_map.mpr (hdec2.imp (fun hab => hmono _ _ hab))
    have hmapcons : (e0.2 :: rest.map (·.2)).map (fun v => (v - e0.2) / e0.2 * 100) =
        ((e0.2 - e0.2) / e0.2 * 100) :: (rest.map (·.2)).map
          (fun v => (v - e0.2) / e0.2 * 100) := rfl
    simp only [hmapcons, List.head_cons, List.tail_cons]
    rw [foldl_min_of_strict _ _ (hmapcons ▸ hpair)]
    refine congrArg some ?_
    have heq : ((e0.2 - e0.2) / e0.2 * 100 ::
        (rest.map (·.2)).map (fun v => (v - e0.2) / e0.2 * 100)) =
        (e0 :: rest).map (fun e => (e.2 - e0.2) / e0.2 * 100) := by
      simp [List.map_map]
    have hx : ∀ (l1 l2 : List ℚ) (h1 : l1 ≠ []) (h2 : l2 ≠ []),
        l1 = l2 → l1.getLast h1 = l2.getLast h2 := by
      intro l1 l2 h1 h2 he
      subst he
      rfl
    rw [hx _ ((e0 :: rest).map (fun e => (e.2 - e0.2) / e0.2 * 100)) _ (by simp) heq,
      List.getLast_map]
  refine ⟨h1, ?_⟩
  rw [calc_risk_df_eq (liftSeries_ne_nil hne) (liftSeries_sorted hs)]
  simp [List.lookup, h1, vfmtPct]

/-- Witness for C5: the strictly decreasing positive series `[(0, 2), (1, 1)]`
with maximum drawdown `(1 - 2) / 2 * 100 = -50`. -/
theorem C5_witness :
    minSkipNa (drawdowns ((liftSeries [(0, 2), (1, 1)]).map (·.2))) =
      some (((1:ℚ) - 2) / 2 * 100) ∧
    List.lookup "最大回撤" (calculate_risk_index_df (liftSeries [(0, 2), (1, 1)])) =
      some (format2 (((1:ℚ) - 2) / 2 * 100) ++ "%") :=
  C5_strict_decreasing_drawdown [(0, 2), (1, 1)] (by decide)
    (by decide) (by decide) (by decide) (by decide)

theorem daily_returns_cons_cons (a b : ℚ) (t : List ℚ) (ha : a ≠ 0) :
    daily_returns ((a :: b :: t).map some) =
      ((b - a) / a) :: daily_returns ((b :: t).map some) := by
  simp [daily_returns, pct_change, vdiv, vsub, ha]

theorem daily_returns_length :
    ∀ vs : List ℚ, (∀ v ∈ vs, v ≠ 0) →
      (daily_returns (vs.map some)).length = vs.length - 1 := by
  intro vs
  induction vs with
  | nil => intro _; rfl
  | cons a t ih =>
    intro hnz
    cases t with
    | nil => rfl
    | cons b t2 =>
      rw [daily_returns_cons_cons a b t2 (hnz a (List.mem_cons_self a _))]
      have := ih (fun v hv => hnz v (List.mem_cons_of_mem a hv))
      simp only [List.length_cons] at this ⊢
      omega

theorem sampleVar_nonneg (l : List ℚ) (h : 2 ≤ l.length) : 0 ≤ sampleVar l := by
  apply div_nonneg
  · apply List.sum_nonneg
    intro x hx
    obtain ⟨y, _, rfl⟩ := List.mem_map.mp hx
    exact sq_nonneg _
  · have h2 : (2:ℚ) ≤ (l.length : ℚ) := by exact_mod_cast h
    linarith

theorem daily_return_std_of_var_zero {l : List ℚ} (h : sampleVar l = 0) :
    daily_return_std l = 0 := by
  simp [daily_return_std, h]

theorem sharpeVal_of_var_zero {l : List ℚ} (h : sampleVar l = 0) : sharpeVal l = 0 := by
  rw [sharpeVal, if_neg]
  simp [daily_return_std_of_var_zero h]

theorem sharpeVal_of_var_ne {l : List ℚ} (hl : 2 ≤ l.length) (h : sampleVar l ≠ 0) :
    sharpeVal l =
      ((listMean l : ℝ) * 252 - 0.03) /
        (Real.sqrt ((sampleVar l : ℚ)) * Real.sqrt 252) := by
  have hpos : (0:ℝ) < ((sampleVar l : ℚ) : ℝ) := by
    have h0 : (0:ℚ) < sampleVar l := lt_of_le_of_ne (sampleVar_nonneg l hl) (Ne.symm h)
    exact_mod_cast h0
  have hstd : daily_return_std l ≠ 0 := by
    rw [daily_return_std]
    exact ne_of_gt (Real.sqrt_pos.mpr hpos)
  rw [sharpeVal, if_pos hstd, daily_return_std]

theorem rheR_zero : rheR 0 = 0 := by
  rw [rheR, if_neg]
  · exact round_zero
  · norm_num

theorem format2R_zero : format2R 0 = "0.00" := by
  rw [format2R, if_neg (lt_irrefl 0)]
  rw [show ((0:ℝ) * 100) = 0 by ring, rheR_zero]
  rfl

theorem sharpeStr_insufficient {l : List ℚ} (h : l.length < 30) :
    sharpeStr l = "数据不足" := by
  rw [sharpeStr, if_pos h]

theorem sharpeStr_of_ge {l : List ℚ} (h : ¬ l.length < 30) :
    sharpeStr l = format2R (sharpeVal l) := by
  rw [sharpeStr, if_neg h]

/-- C6: on a fully parsed NAV series with at least 31 entries whose
daily-return sequence has zero sample variance (equivalently zero sample
standard deviation), the Sharpe computation takes the guarded branch and
returns 0 — reported as "0.00" — regardless of the mean return. -/
theorem C6_flat_sharpe_zero :
    ∀ entries : List (ℤ × ℚ), 31 ≤ entries.length →
      List.Sorted (fun a b => a.1 < b.1) entries →
      (∀ e ∈ entries, e.2 ≠ 0) →
      sampleVar (daily_returns ((liftSeries entries).map (·.2))) = 0 →
      List.lookup "夏普比率" (calculate_risk_index_df (liftSeries entries)) =
        some "0.00" := by
  intro entries hlen hs hnz hvar
  have hne : entries ≠ [] := by
    intro h
    rw [h] at hlen
    simp at hlen
  have hnzv : ∀ v ∈ entries.map (·.2), v ≠ 0 := by
    intro v hv
    obtain ⟨e, he, rfl⟩ := List.mem_map.mp hv
    exact hnz e he
  have hlen2 : (daily_returns ((liftSeries entries).map (·.2))).length =
      entries.length - 1 := by
    rw [liftSeries_map_snd, daily_returns_length _ hnzv, List.length_map]
  have hge : ¬ (daily_returns ((liftSeries entries).map (·.2))).length < 30 := by
    rw [hlen2]; omega
  rw [calc_risk_df_eq (liftSeries_ne_nil hne) (liftSeries_sorted hs)]
  simp [List.lookup, sharpeStr_of_ge hge, sharpeVal_of_var_zero hvar, format2R_zero]

set_option maxRecDepth 100000 in
unseal Rat.mul Rat.add Rat.sub Rat.inv in
/-- Witness for C6: a constant series of 31 entries (all values 1), whose 30
daily returns are all 0. -/
theorem C6_witness :
    List.lookup "夏普比率"
        (calculate_risk_index_df
          (liftSeries ((List.range 31).map (fun i => ((i:ℤ), (1:ℚ)))))) =
      some "0.00" :=
  C6_flat_sharpe_zero ((List.range 31).map (fun i => ((i:ℤ), (1:ℚ))))
    (by decide) (by decide) (by decide) (by decide)

/-- C7: on a non-empty fully parsed NAV series whose daily-return sequence
(length n - 1) has fewer than 30 entries, the Sharpe result is the "数据不足"
sentinel while the maximum drawdown is still computed for the same series. -/
theorem C7_short_series_sharpe_sentinel :
    ∀ entries : List (ℤ × ℚ), entries ≠ [] →
      List.Sorted (fun a b => a.1 < b.1) entries →
      (∀ e ∈ entries, e.2 ≠ 0) →
      entries.length - 1 < 30 →
      calculate_risk_index_df (liftSeries entries) =
        [("最大回撤", vfmtPct (minSkipNa (drawdowns ((liftSeries entries).map (·.2))))),
         ("夏普比率", "数据不足")] := by
  intro entries hne hs hnz hshort
  have hnzv : ∀ v ∈ entries.map (·.2), v ≠ 0 := by
    intro v hv
    obtain ⟨e, he, rfl⟩ := List.mem_map.mp hv
    exact hnz e he
  have hlen2 : (daily_returns ((liftSeries entries).map (·.2))).length =
      entries.length - 1 := by
    rw [liftSeries_map_snd, daily_returns_length _ hnzv, List.length_map]
  rw [calc_risk_df_eq (liftSeries_ne_nil hne) (liftSeries_sorted hs),
    sharpeStr_insufficient (by rw [hlen2]; omega)]

/-- Witness for C7: the two-entry series `[(0, 1), (1, 2)]`, with one daily
return. -/
theorem C7_witness :
    calculate_risk_index_df (liftSeries [(0, 1), (1, 2)]) =
      [("最大回撤",
        vfmtPct (minSkipNa (drawdowns ((liftSeries [(0, 1), (1, 2)]).map (·.2))))),
       ("夏普比率", "数据不足")] :=
  C7_short_series_sharpe_sentinel [(0, 1), (1, 2)]
    (by decide) (by decide) (by decide) (by decide)

/-- C8: on a fully parsed NAV series whose daily-return sequence has at least
30 entries and nonzero sample variance, the reported Sharpe ratio is exactly
`(mean * 252 - 0.03) / (std * sqrt 252)` — with the sample standard deviation
`std = sqrt (sampleVar)`, the risk-free rate fixed at 0.03 and 252 trading
days — formatted to two decimals. -/
theorem C8_sharpe_formula :
    ∀ entries : List (ℤ × ℚ), 31 ≤ entries.length →
      List.Sorted (fun a b => a.1 < b.1) entries →
      (∀ e ∈ entries, e.2 ≠ 0) →
      sampleVar (daily_returns ((liftSeries entries).map (·.2))) ≠ 0 →
      List.lookup "夏普比率" (calculate_risk_index_df (liftSeries entries)) =
        some (format2R
          (((listMean (daily_returns ((liftSeries entries).map (·.2))) : ℝ) * 252 - 0.03) /
            (Real.sqrt ((sampleVar (daily_returns ((liftSeries entries).map (·.2))) : ℚ)) *
              Real.sqrt 252))) := by
  intro entries hlen hs hnz hvar
  have hne : entries ≠ [] := by
    intro h
    rw [h] at hlen
    simp at hlen
  have hnzv : ∀ v ∈ entries.map (·.2), v ≠ 0 := by
    intro v hv
    obtain ⟨e, he, rfl⟩ := List.mem_map.mp hv
    exact hnz e he
  have hlen2 : (daily_returns ((liftSeries entries).map (·.2))).length =
      entries.length - 1 := by
    rw [liftSeries_map_snd, daily_returns_length _ hnzv, List.length_map]
  have hge : ¬ (daily_returns ((liftSeries entries).map (·.2))).length < 30 := by
    rw [hlen2]; omega
  have h2 : 2 ≤ (daily_returns ((liftSeries entries).map (·.2))).length := by
    rw [hlen2]; omega
  rw [calc_risk_df_eq (liftSeries_ne_nil hne) (liftSeries_sorted hs)]
  simp [List.lookup, sharpeStr_of_ge hge, sharpeVal_of_var_ne h2 hvar]

set_option maxRecDepth 100000 in
unseal Rat.mul Rat.add Rat.sub Rat.inv in
/-- Witness for C8: a 31-entry series alternating between 1 and 2, whose 30
daily returns alternate between 1 and -1/2 (nonzero variance). -/
theorem C8_witness :
    List.lookup "夏普比率"
        (calculate_risk_index_df
          (liftSeries ((List.range 31).map
            (fun i => ((i:ℤ), if i % 2 = 0 then (1:ℚ) else 2))))) =
      some (format2R
        (((listMean (daily_returns ((liftSeries ((List.range 31).map
            (fun i => ((i:ℤ), if i % 2 = 0 then (1:ℚ) else 2)))).map (·.2))) : ℝ) *
              252 - 0.03) /
          (Real.sqrt ((sampleVar (daily_returns ((liftSeries ((List.range 31).map
            (fun i => ((i:ℤ), if i % 2 = 0 then (1:ℚ) else 2)))).map (·.2))) : ℚ)) *
            Real.sqrt 252))) :=
  C8_sharpe_formula ((List.range 31).map (fun i => ((i:ℤ), if i % 2 = 0 then (1:ℚ) else 2)))
    (by decide) (by decide) (by decide) (by decide)

/-- C9 counterexample: the loader keeps a row whose value failed to parse
(`none`, i.e. pandas `NaN`) — the source applies `to_numeric(errors =
"coerce")` with no subsequent `dropna` and no positivity check — refuting the
claim that every loader entry carries a successfully parsed, strictly
positive value. -/
theorem C9_counterexample :
    ¬ (∀ e ∈ get_fund_net_value 1000 (.ok [(1000, none), (900, some (-2))]),
        ∃ v : ℚ, e.2 = some v ∧ 0 < v) := by
  intro h
  have hmem : ((1000:ℤ), (none : Option ℚ)) ∈
      get_fund_net_value 1000 (.ok [(1000, none), (900, some (-2))]) := by decide
  obtain ⟨v, hv, _⟩ := h _ hmem
  exact Option.noConfusion hv

/-- C9 amended: the loader passes values through unchanged — unparsable
entries become missing values (`NaN`) and are retained, and no positivity
constraint is enforced; its output consists of exactly the fetched rows whose
date lies within 365 days of fetch time. -/
theorem C9_loader_characterization :
    ∀ (now : ℤ) (rows : List Row) (e : Row),
      e ∈ get_fund_net_value now (.ok rows) ↔ e ∈ rows ∧ now - 365 ≤ e.1 := by
  intro now rows e
  simp [get_fund_net_value, List.mem_filter]

end FundData
